import Mathlib

/-!
Verification of `intonation.py`, an adaptive pitch-discrimination trainer.

Pure fragments of the program are shallow-embedded here: machine floats
become real numbers, numpy arrays become lists, the two random draws of
`gen_tones` become explicit parameters, and fallible numpy operations
(array broadcasting, tuple unpacking) return `Option`.
-/

/-- Constant `SAMPLE_RATE = 48000` (intonation.py line 15). -/
def SAMPLE_RATE : ℕ := 48000

/-- Nyquist frequency of the configured output, `SAMPLE_RATE / 2`. -/
noncomputable def nyquist : ℝ := (SAMPLE_RATE : ℝ) / 2

/-- Constant `FMIN = librosa.note_to_hz("A1")` (line 19): A1 is three octaves
below A4 = 440 Hz in the equal-tempered tuning librosa implements, so 55 Hz. -/
noncomputable def FMIN : ℝ := 55

/-- Constant `FMAX = librosa.note_to_hz("C7")` (line 20): C7 is 27 semitones
above A4 = 440 Hz, i.e. 440 · 2^(27/12) ≈ 2093 Hz. -/
noncomputable def FMAX : ℝ := 440 * (2 : ℝ) ^ ((27 : ℝ) / 12)

/-- Constant `STEP = 0.9` (line 25), the decay ratio of the difficulty. -/
noncomputable def STEP : ℝ := 0.9

/-- Constant `DIFF = 20` (line 26), the base difficulty in cents. -/
noncomputable def DIFF : ℝ := 20

/-- Local `diff = DIFF * STEP**level` of `gen_tones` (line 74): the trial
difficulty in cents as a function of the integer level. -/
noncomputable def diff (level : ℤ) : ℝ := DIFF * STEP ^ level

/-- Staircase update of the main loop (lines 163–171): a correct answer
does `level += 1`, an incorrect one `level -= 2`; no clamping. -/
def update (level : ℤ) (wasCorrect : Bool) : ℤ :=
  if wasCorrect then level + 1 else level - 2

/-- Level reached from the initial `level = 0` (line 153) after a sequence of
answered trials, folding the staircase update over the responses. -/
def finalLevel (resps : List Bool) : ℤ := resps.foldl update 0

/-- Result of `gen_tones` (lines 73–79): the two frequencies and the true
direction of the pitch change. -/
structure Trial where
  f1 : ℝ
  f2 : ℝ
  direction : ℤ

/-- Function `gen_tones(level)` (lines 73–79).  The two random draws are
passed explicitly: `r1` is the value returned by
`random.uniform(log(FMIN), log(FMAX))` and `r2` the value returned by
`random.random()`. -/
noncomputable def gen_tones (level : ℤ) (r1 r2 : ℝ) : Trial :=
  let d := diff level
  let f1 := Real.exp r1
  let direction : ℤ := if r2 < 0.5 then 1 else -1
  let f2 := f1 * (2 : ℝ) ^ (d / 1200 * (direction : ℝ))
  ⟨f1, f2, direction⟩

/-- Expression `(f1 * f2) ** 0.5` (lines 166 and 170): the centre frequency
stored in an observation. -/
noncomputable def centerFreq (f1 f2 : ℝ) : ℝ := (f1 * f2) ^ (0.5 : ℝ)

/-- One observation record `(level, (f1*f2)**0.5, correct)` appended to
`stats` (lines 166 and 170). -/
abbrev Obs := ℤ × ℝ × Bool

/-- Symbols returned by `get_key` (lines 82–92). -/
inductive Key
  | up
  | down
  | left
  | esc
deriving DecidableEq

/-- Mutable state of the main loop (lines 153–172): the current level, the
current trial and the accumulated statistics list. -/
structure SessionState where
  level : ℤ
  trial : Trial
  stats : List Obs

/-- One iteration of the main loop body after a key press (lines 158–172).
`esc` breaks the loop (the state is returned unchanged; termination is the
caller's business), `left` hits `continue`, replaying the same trial, and
`up`/`down` append an observation at the current level, update the level and
generate the next trial from fresh draws `r1`, `r2`. -/
noncomputable def step (s : SessionState) (key : Key) (r1 r2 : ℝ) : SessionState :=
  match key with
  | Key.esc => s
  | Key.left => s
  | k =>
    let ans : ℤ := if k = Key.up then 1 else -1
    if ans = s.trial.direction then
      let level' := update s.level true
      { level := level'
        trial := gen_tones level' r1 r2
        stats := s.stats ++ [(s.level, centerFreq s.trial.f1 s.trial.f2, true)] }
    else
      let level' := update s.level false
      { level := level'
        trial := gen_tones level' r1 r2
        stats := s.stats ++ [(s.level, centerFreq s.trial.f1 s.trial.f2, false)] }

/-- Unpacking step of `report` (line 96):
`levels, freqs, colors = np.array(stats).T`.  For a nonempty list of `n`
triples, `np.array` yields an `n × 3` matrix whose transpose unpacks into the
three columns; for the empty list `np.array([])` is a flat length-0 array and
unpacking it into three names raises `ValueError`, modelled as `none`. -/
def reportSeries (stats : List Obs) : Option (List ℤ × List ℝ × List Bool) :=
  if stats.isEmpty then none
  else
    some (stats.map (fun o => o.1), stats.map (fun o => o.2.1),
      stats.map (fun o => o.2.2))

/-- Suffix `".npy"` that `np.save` appends to a file name lacking it. -/
def npy : String := ".npy"

/-- Reserved store name `"none"` of the `--stats` option (lines 136, 149). -/
def noneName : String := "none"

/-- Statistics list at session start (lines 148–150): loading is skipped when
the store name is `"none"` or when the file does not exist; a missing file is
modelled as `store = none`. -/
def initialStats (statsName : String) (store : Option (List Obs)) : List Obs :=
  if statsName ≠ noneName then store.getD [] else []

/-- File written by `np.save(args.stats, stats)` at session end (line 176):
the call is unconditional, and `np.save` appends `".npy"` to a name lacking
that suffix.  `none` would mean no file is written; the code always writes. -/
def saveTarget (statsName : String) : Option String :=
  some (if npy.data.isSuffixOf statsName.data then statsName else statsName ++ npy)

/-- Call `np.linspace(a, b, n)` (lines 40–41): `n` evenly spaced samples from
`a` to `b` inclusive.  For `n = 1` numpy returns `[a]`, which the formula
also gives since division by zero is zero in Lean. -/
noncomputable def linspace (a b : ℝ) (n : ℕ) : List ℝ :=
  (List.range n).map (fun i : ℕ => a + (b - a) * (i : ℝ) / ((n : ℝ) - 1))

/-- In-place numpy broadcast of a 1-D operand `v` against a slice of size
`k`: legal when the sizes agree or `v` has a single element (broadcast to
every position); otherwise the operation raises, modelled as `none`. -/
def broadcastTo (v : List ℝ) (k : ℕ) : Option (List ℝ) :=
  if v.length = k then some v
  else if v.length = 1 then some (List.replicate k v.headI)
  else none

/-- Statement `y[:n] *= v` (line 40): the slice has `min (len y) n` elements,
and the multiply succeeds only if `v` broadcasts to that size. -/
def mulFrontSlice (y v : List ℝ) (n : ℕ) : Option (List ℝ) :=
  let k := min y.length n
  (broadcastTo v k).map
    (fun r => List.zipWith (fun a b => a * b) (y.take k) r ++ y.drop k)

/-- Statement `y[-n:] *= v` (line 41): the slice holds the last
`min (len y) n` elements. -/
def mulBackSlice (y v : List ℝ) (n : ℕ) : Option (List ℝ) :=
  let k := min y.length n
  (broadcastTo v k).map
    (fun r =>
      y.take (y.length - k) ++
        List.zipWith (fun a b => a * b) (y.drop (y.length - k)) r)

/-- Function `fade(y, length=1024)` (lines 39–41): ramp the first `length`
samples up from 0 and the last `length` down to 0.  No clamping of `length`
appears in the source; a buffer shorter than `length` makes the slice and
the ramp disagree in size and the multiply raises. -/
noncomputable def fade (y : List ℝ) (length : ℕ := 1024) : Option (List ℝ) :=
  (mulFrontSlice y (linspace 0 1 length) length).bind
    (fun y1 => mulBackSlice y1 (linspace 1 0 length) length)

/-- Line 60 of `play`:
`np.column_stack((y * (1 - pan) / 2, y * (1 + pan) / 2))` — the stereo pan
law applied samplewise, returning (left, right) pairs. -/
noncomputable def panStereo (y : List ℝ) (pan : ℝ) : List (ℝ × ℝ) :=
  y.map (fun s => (s * (1 - pan) / 2, s * (1 + pan) / 2))

/-! Helper lemmas shared by several of the claim theorems. -/

lemma STEP_pos : (0 : ℝ) < STEP := by norm_num [STEP]

lemma STEP_lt_one : STEP < 1 := by norm_num [STEP]

lemma diff_pos (L : ℤ) : 0 < diff L := by
  have := zpow_pos STEP_pos L
  unfold diff DIFF
  positivity

lemma diff_anti {L1 L2 : ℤ} (h : L1 < L2) : diff L2 < diff L1 := by
  unfold diff
  have hz : STEP ^ L2 < STEP ^ L1 :=
    zpow_lt_zpow_right_of_lt_one₀ STEP_pos STEP_lt_one h
  have hD : (0 : ℝ) < DIFF := by norm_num [DIFF]
  exact mul_lt_mul_of_pos_left hz hD

lemma diff_zero : diff 0 = DIFF := by simp [diff]

lemma diff_le_DIFF {L : ℤ} (h : 0 ≤ L) : diff L ≤ DIFF := by
  unfold diff
  have h1 : STEP ^ L ≤ 1 := zpow_le_one₀ STEP_pos (le_of_lt STEP_lt_one) h
  have hD : (0 : ℝ) ≤ DIFF := by norm_num [DIFF]
  calc DIFF * STEP ^ L ≤ DIFF * 1 := by
        exact mul_le_mul_of_nonneg_left h1 hD
    _ = DIFF := mul_one _

lemma centerFreq_eq_sqrt (a b : ℝ) : centerFreq a b = Real.sqrt (a * b) := by
  rw [centerFreq, Real.sqrt_eq_rpow]
  norm_num

lemma FMIN_pos : (0 : ℝ) < FMIN := by norm_num [FMIN]

lemma FMAX_pos : (0 : ℝ) < FMAX := by
  unfold FMAX
  positivity

lemma FMAX_le : FMAX ≤ 3520 := by
  unfold FMAX
  have h1 : (2 : ℝ) ^ ((27 : ℝ) / 12) ≤ (2 : ℝ) ^ ((3 : ℕ) : ℝ) := by
    apply (Real.rpow_le_rpow_left_iff (by norm_num)).mpr
    norm_num
  have h2 : (2 : ℝ) ^ ((3 : ℕ) : ℝ) = 8 := by
    rw [Real.rpow_natCast]
    norm_num
  nlinarith

lemma FMIN_le_FMAX : FMIN ≤ FMAX := by
  have h1 : (1 : ℝ) ≤ (2 : ℝ) ^ ((27 : ℝ) / 12) := by
    have := (Real.rpow_le_rpow_left_iff (x := 2) (by norm_num)).mpr
      (show (0 : ℝ) ≤ 27 / 12 by norm_num)
    rwa [Real.rpow_zero] at this
  unfold FMIN FMAX
  nlinarith

lemma log_FMIN_le_log_FMAX : Real.log FMIN ≤ Real.log FMAX :=
  Real.log_le_log FMIN_pos FMIN_le_FMAX

lemma foldl_update_count (l : List Bool) (s : ℤ) :
    l.foldl update s = s + l.count true - 2 * l.count false := by
  induction l generalizing s with
  | nil => simp
  | cons b t ih =>
    cases b <;>
      simp [List.foldl_cons, ih, update, List.count_cons] <;>
      omega

/-- C1: for every integer level `L`, including negative `L`, the staircase
update yields `L + 1` after a correct response and `L - 2` after an
incorrect one, with no floor or ceiling applied. -/
theorem update_staircase (L : ℤ) :
    update L true = L + 1 ∧ update L false = L - 2 :=
  ⟨rfl, rfl⟩

/-- C10: for every finite sequence of answered trials, the final level
equals (number correct) − 2·(number incorrect); the counts determine the
result, so the order of responses is irrelevant. -/
theorem finalLevel_eq_counts (resps : List Bool) :
    finalLevel resps =
      (resps.count true : ℤ) - 2 * (resps.count false : ℤ) := by
  rw [finalLevel, foldl_update_count]
  ring

/-- C7: a replay (`left`) leaves the whole session state — level, current
trial and observation log — unchanged, and any number of consecutive
replays (in particular ten) leaves the observation log length unchanged. -/
theorem step_left_replay (s : SessionState) (r1 r2 : ℝ) :
    step s Key.left r1 r2 = s ∧
    (∀ n : ℕ, (fun t => step t Key.left r1 r2)^[n] s = s) ∧
    ((fun t => step t Key.left r1 r2)^[10] s).stats.length = s.stats.length := by
  refine ⟨rfl, fun n => Function.iterate_fixed rfl n, ?_⟩
  rw [Function.iterate_fixed rfl 10]

/-- C4 counterexample: on the empty observation log the column unpacking in
`report` fails (a length-0 array does not unpack into three names), so
report-building does not complete without error. -/
theorem reportSeries_empty_fails : reportSeries [] = none := rfl

/-- C4 (amended): when the session terminates via quit, report-building
completes for every nonempty observation log, and the `np.save` persistence
step always has a target to write; on the empty log report-building fails. -/
theorem reportSeries_nonempty_completes (stats : List Obs) (h : stats ≠ []) :
    (reportSeries stats).isSome = true ∧
    ∀ name : String, (saveTarget name).isSome = true := by
  constructor
  · simp [reportSeries, h]
  · intro name
    rfl

/-- Witness for C4 (amended) at the one-element log. -/
theorem reportSeries_nonempty_completes_witness :
    ([((0 : ℤ), (440 : ℝ), true)] ≠ []) ∧
    ((reportSeries [((0 : ℤ), (440 : ℝ), true)]).isSome = true ∧
      ∀ name : String, (saveTarget name).isSome = true) :=
  ⟨by simp, reportSeries_nonempty_completes _ (by simp)⟩

/-- C5: with store name `"none"`, loading is indeed skipped for every state
of the file system, but `np.save` still runs unconditionally at session end
and writes the file `"none.npy"` — persistence is not a no-op. -/
theorem saveTarget_none_writes (store : Option (List Obs)) :
    initialStats noneName store = [] ∧
    saveTarget noneName = some (noneName ++ npy) := by
  constructor
  · simp [initialStats]
  · rfl

/-- C3: the trial difficulty `diff L = DIFF * STEP ^ L` (with `DIFF = 20`,
`STEP = 0.9`) is strictly decreasing in the level and strictly positive at
every integer level; no level produces a difficulty at or below zero. -/
theorem diff_strictly_decreasing_and_positive :
    (∀ L1 L2 : ℤ, L1 < L2 → diff L2 < diff L1) ∧ ∀ L : ℤ, 0 < diff L :=
  ⟨fun _ _ h => diff_anti h, diff_pos⟩

/-- Witness for C3 at levels 0 and 1. -/
theorem diff_strictly_decreasing_and_positive_witness :
    ((0 : ℤ) < 1) ∧ diff 1 < diff 0 ∧ 0 < diff 0 :=
  ⟨by decide, diff_strictly_decreasing_and_positive.1 0 1 (by decide),
    diff_strictly_decreasing_and_positive.2 0⟩

/-- C2: at every level `L`, for every drawn `f1 > 0` and either direction,
the generated trial has exactly that `f1`, a direction in {1, −1},
`f2 = f1 · 2^(diff L / 1200 · direction)`, and the centre frequency
`(f1·f2)**0.5` recorded in the observation equals
`f1 · 2^(diff L / 2400 · direction)`. -/
theorem gen_tones_f2_centerFreq (L : ℤ) (f1 : ℝ) (hf1 : 0 < f1) (r2 : ℝ) :
    ((gen_tones L (Real.log f1) r2).direction = 1 ∨
      (gen_tones L (Real.log f1) r2).direction = -1) ∧
    (gen_tones L (Real.log f1) r2).f1 = f1 ∧
    (gen_tones L (Real.log f1) r2).f2 =
      f1 * (2 : ℝ) ^
        (diff L / 1200 * ((gen_tones L (Real.log f1) r2).direction : ℝ)) ∧
    centerFreq (gen_tones L (Real.log f1) r2).f1
        (gen_tones L (Real.log f1) r2).f2 =
      f1 * (2 : ℝ) ^
        (diff L / 2400 * ((gen_tones L (Real.log f1) r2).direction : ℝ)) := by
  have hexp : Real.exp (Real.log f1) = f1 := Real.exp_log hf1
  have hdir : (gen_tones L (Real.log f1) r2).direction = 1 ∨
      (gen_tones L (Real.log f1) r2).direction = -1 := by
    unfold gen_tones
    split_ifs <;> simp
  have hf1' : (gen_tones L (Real.log f1) r2).f1 = f1 := by
    unfold gen_tones
    split_ifs <;> simpa using hexp
  have hf2 : (gen_tones L (Real.log f1) r2).f2 =
      f1 * (2 : ℝ) ^
        (diff L / 1200 * ((gen_tones L (Real.log f1) r2).direction : ℝ)) := by
    unfold gen_tones
    split_ifs <;> simp [hexp]
  refine ⟨hdir, hf1', hf2, ?_⟩
  set d : ℝ := ((gen_tones L (Real.log f1) r2).direction : ℝ) with hd
  have key : ∀ e : ℝ,
      Real.sqrt (f1 * (f1 * (2 : ℝ) ^ e)) = f1 * (2 : ℝ) ^ (e / 2) := by
    intro e
    have h2 : (2 : ℝ) ^ (e / 2) * (2 : ℝ) ^ (e / 2) = (2 : ℝ) ^ e := by
      rw [← Real.rpow_add (by norm_num : (0 : ℝ) < 2)]
      ring_nf
    have h1 : f1 * (f1 * (2 : ℝ) ^ e) = (f1 * (2 : ℝ) ^ (e / 2)) ^ 2 := by
      calc f1 * (f1 * (2 : ℝ) ^ e)
          = f1 * f1 * ((2 : ℝ) ^ (e / 2) * (2 : ℝ) ^ (e / 2)) := by
            rw [h2]; ring
        _ = (f1 * (2 : ℝ) ^ (e / 2)) ^ 2 := by ring
    rw [h1, Real.sqrt_sq (by positivity)]
  have hhalf : diff L / 1200 * d / 2 = diff L / 2400 * d := by ring
  rw [centerFreq_eq_sqrt, hf1', hf2, key (diff L / 1200 * d), hhalf]

/-- Witness for C2 at level 0, `f1 = 1`, first draw of the coin. -/
theorem gen_tones_f2_centerFreq_witness :
    ((0 : ℝ) < 1) ∧
    (((gen_tones 0 (Real.log 1) 0).direction = 1 ∨
        (gen_tones 0 (Real.log 1) 0).direction = -1) ∧
      (gen_tones 0 (Real.log 1) 0).f1 = 1 ∧
      (gen_tones 0 (Real.log 1) 0).f2 =
        1 * (2 : ℝ) ^
          (diff 0 / 1200 * ((gen_tones 0 (Real.log 1) 0).direction : ℝ)) ∧
      centerFreq (gen_tones 0 (Real.log 1) 0).f1
          (gen_tones 0 (Real.log 1) 0).f2 =
        1 * (2 : ℝ) ^
          (diff 0 / 2400 * ((gen_tones 0 (Real.log 1) 0).direction : ℝ))) :=
  ⟨by norm_num, gen_tones_f2_centerFreq 0 1 (by norm_num) 0⟩

lemma linspace_length (a b : ℝ) (n : ℕ) : (linspace a b n).length = n := by
  rw [linspace, List.length_map, List.length_range]

/-- C6 counterexample: a 2-sample buffer with the default `fadeLength = 1024`
has fewer than `2 * fadeLength` samples, yet `fade` does not clamp the fade
length — the ramp and the slice disagree in size and the elementwise
multiply raises, so the call does not complete. -/
theorem fade_short_buffer_fails :
    (List.replicate 2 (1 : ℝ)).length < 2 * 1024 ∧
    fade (List.replicate 2 (1 : ℝ)) 1024 = none := by
  constructor
  · simp
  · have hlen : (linspace 0 1 1024).length = 1024 := linspace_length 0 1 1024
    have hk : min (List.replicate 2 (1 : ℝ)).length 1024 = 2 := by simp
    simp [fade, mulFrontSlice, broadcastTo, hlen, hk]

/-- C6 (amended): `fade` applies no clamping; the call completes exactly on
buffers holding at least `fadeLength` samples (so also when
`fadeLength ≤ len(samples) < 2 * fadeLength`, where the two ramps overlap),
and raises on shorter buffers. -/
theorem fade_completes_of_le (y : List ℝ) (n : ℕ) (h : n ≤ y.length) :
    (fade y n).isSome = true := by
  have hk : min y.length n = n := min_eq_right h
  have h1 : mulFrontSlice y (linspace 0 1 n) n =
      some (List.zipWith (fun a b => a * b) (y.take n) (linspace 0 1 n) ++
        y.drop n) := by
    simp [mulFrontSlice, broadcastTo, linspace_length, hk]
  set y1 := List.zipWith (fun a b => a * b) (y.take n) (linspace 0 1 n) ++
    y.drop n with hy1
  have hy1len : y1.length = y.length := by
    rw [hy1]
    simp [List.length_zipWith, linspace_length, List.length_take,
      List.length_drop]
    omega
  have hk1 : min y1.length n = n := by rw [hy1len]; exact min_eq_right h
  have h2 : (mulBackSlice y1 (linspace 1 0 n) n).isSome = true := by
    simp [mulBackSlice, broadcastTo, linspace_length, hk1]
  simp only [fade, h1, Option.some_bind]
  exact h2

/-- Witness for C6 (amended) on a 2048-sample buffer with the default fade
length 1024. -/
theorem fade_completes_of_le_witness :
    1024 ≤ (List.replicate 2048 (1 : ℝ)).length ∧
    (fade (List.replicate 2048 (1 : ℝ)) 1024).isSome = true :=
  ⟨by norm_num, fade_completes_of_le _ 1024 (by norm_num)⟩

/-- C8 counterexample: level −60 is reachable (thirty incorrect responses
from level 0), the draw `r1 = log FMIN` is inside the legal range, and the
direction is +1, yet the generated `f2` exceeds the Nyquist frequency. -/
theorem gen_tones_exceeds_nyquist :
    Real.log FMIN ≤ Real.log FMIN ∧ Real.log FMIN ≤ Real.log FMAX ∧
    nyquist < (gen_tones (-60) (Real.log FMIN) 0).f2 := by
  refine ⟨le_rfl, log_FMIN_le_log_FMAX, ?_⟩
  have hcoin : (0 : ℝ) < 0.5 := by norm_num
  have hstep : (gen_tones (-60) (Real.log FMIN) 0).f2 =
      FMIN * (2 : ℝ) ^ (diff (-60) / 1200 * ((1 : ℤ) : ℝ)) := by
    simp [gen_tones, hcoin, Real.exp_log FMIN_pos]
  rw [hstep]
  have hx : (9 : ℝ) ≤ diff (-60) / 1200 * ((1 : ℤ) : ℝ) := by
    have h1 : diff (-60) = 20 * ((0.9 : ℝ) ^ (60 : ℕ))⁻¹ := by
      unfold diff DIFF STEP
      rw [show ((-60 : ℤ)) = -((60 : ℕ) : ℤ) by norm_num, zpow_neg,
        zpow_natCast]
    rw [h1]
    push_cast
    norm_num
  have h2x : (2 : ℝ) ^ ((9 : ℕ) : ℝ) ≤
      (2 : ℝ) ^ (diff (-60) / 1200 * ((1 : ℤ) : ℝ)) := by
    apply (Real.rpow_le_rpow_left_iff (by norm_num : (1 : ℝ) < 2)).mpr
    exact_mod_cast hx
  have h512 : (2 : ℝ) ^ ((9 : ℕ) : ℝ) = 512 := by
    rw [Real.rpow_natCast]
    norm_num
  have hny : nyquist = 24000 := by norm_num [nyquist, SAMPLE_RATE]
  rw [hny]
  calc (24000 : ℝ) < 55 * 512 := by norm_num
    _ ≤ FMIN * (2 : ℝ) ^ (diff (-60) / 1200 * ((1 : ℤ) : ℝ)) := by
        have h55 : FMIN = 55 := rfl
        rw [h55, ← h512]
        exact mul_le_mul_of_nonneg_left h2x (by norm_num)

/-- C8 (amended): `f1` always lies strictly between 0 and Nyquist, and at
every nonnegative level `f2` does too; at sufficiently negative (still
reachable) levels `f2` can exceed Nyquist. -/
theorem gen_tones_in_nyquist_of_nonneg (L : ℤ) (hL : 0 ≤ L) (r1 : ℝ)
    (_hlo : Real.log FMIN ≤ r1) (hhi : r1 ≤ Real.log FMAX) (r2 : ℝ) :
    (0 < (gen_tones L r1 r2).f1 ∧ (gen_tones L r1 r2).f1 < nyquist) ∧
    (0 < (gen_tones L r1 r2).f2 ∧ (gen_tones L r1 r2).f2 < nyquist) := by
  have hny : nyquist = 24000 := by norm_num [nyquist, SAMPLE_RATE]
  have hf1v : (gen_tones L r1 r2).f1 = Real.exp r1 := by
    simp [gen_tones]
  have hf1pos : 0 < Real.exp r1 := Real.exp_pos r1
  have hf1le : Real.exp r1 ≤ FMAX := by
    calc Real.exp r1 ≤ Real.exp (Real.log FMAX) := Real.exp_le_exp.mpr hhi
      _ = FMAX := Real.exp_log FMAX_pos
  have hFle := FMAX_le
  have hf1lt : Real.exp r1 < nyquist := by rw [hny]; linarith
  refine ⟨⟨by rw [hf1v]; exact hf1pos, by rw [hf1v]; exact hf1lt⟩, ?_⟩
  set d : ℤ := if r2 < 0.5 then 1 else -1 with hd
  have hf2v : (gen_tones L r1 r2).f2 =
      Real.exp r1 * (2 : ℝ) ^ (diff L / 1200 * (d : ℝ)) := by
    rw [hd]
    simp [gen_tones]
  have hd2 : d = 1 ∨ d = -1 := by
    rw [hd]
    split_ifs <;> simp
  have hdiffle : diff L ≤ DIFF := diff_le_DIFF hL
  have hdiffpos : 0 < diff L := diff_pos L
  have hD20 : DIFF = 20 := rfl
  have hexp_le : diff L / 1200 * (d : ℝ) ≤ 1 := by
    rcases hd2 with h | h <;> rw [h] <;> push_cast <;> nlinarith
  have h2le : (2 : ℝ) ^ (diff L / 1200 * (d : ℝ)) ≤ 2 := by
    have h := (Real.rpow_le_rpow_left_iff
      (by norm_num : (1 : ℝ) < 2)).mpr hexp_le
    rwa [Real.rpow_one] at h
  have h2pos : 0 < (2 : ℝ) ^ (diff L / 1200 * (d : ℝ)) :=
    Real.rpow_pos_of_pos (by norm_num) _
  rw [hf2v]
  constructor
  · positivity
  · have hbound : Real.exp r1 * (2 : ℝ) ^ (diff L / 1200 * (d : ℝ)) ≤
        FMAX * 2 :=
      mul_le_mul hf1le h2le (le_of_lt h2pos) (le_of_lt FMAX_pos)
    rw [hny]
    linarith

/-- Witness for C8 (amended) at level 0 and the lowest legal draw. -/
theorem gen_tones_in_nyquist_of_nonneg_witness :
    ((0 : ℤ) ≤ 0) ∧ Real.log FMIN ≤ Real.log FMIN ∧
    Real.log FMIN ≤ Real.log FMAX ∧
    ((0 < (gen_tones 0 (Real.log FMIN) 0).f1 ∧
        (gen_tones 0 (Real.log FMIN) 0).f1 < nyquist) ∧
      (0 < (gen_tones 0 (Real.log FMIN) 0).f2 ∧
        (gen_tones 0 (Real.log FMIN) 0).f2 < nyquist)) :=
  ⟨le_rfl, le_rfl, log_FMIN_le_log_FMAX,
    gen_tones_in_nyquist_of_nonneg 0 le_rfl (Real.log FMIN) le_rfl
      log_FMIN_le_log_FMAX 0⟩

/-- C9: for every mono buffer and every pan value in [−1, 1], the two
channels produced by the pan law sum back to the original signal
sample-for-sample; pan 0 gives equal channels at half amplitude, pan 1 puts
the whole signal on the right channel and pan −1 on the left. -/
theorem panStereo_sum_and_extremes (y : List ℝ) (p : ℝ)
    (_h1 : -1 ≤ p) (_h2 : p ≤ 1) :
    (panStereo y p).map (fun c => c.1 + c.2) = y ∧
    panStereo y 0 = y.map (fun s => (s / 2, s / 2)) ∧
    panStereo y 1 = y.map (fun s => ((0 : ℝ), s)) ∧
    panStereo y (-1) = y.map (fun s => (s, (0 : ℝ))) := by
  refine ⟨?_, ?_, ?_, ?_⟩
  · rw [panStereo, List.map_map]
    have hfun : ((fun c : ℝ × ℝ => c.1 + c.2) ∘
        fun s : ℝ => (s * (1 - p) / 2, s * (1 + p) / 2)) = id := by
      funext s
      simp [Function.comp]
      ring
    rw [hfun, List.map_id]
  · rw [panStereo]
    congr 1
    funext s
    norm_num
  · rw [panStereo]
    congr 1
    funext s
    norm_num
  · rw [panStereo]
    congr 1
    funext s
    norm_num

/-- Witness for C9 on the one-sample buffer at pan 0. -/
theorem panStereo_sum_and_extremes_witness :
    ((-1 : ℝ) ≤ 0) ∧ ((0 : ℝ) ≤ 1) ∧
    ((panStereo [(1 : ℝ)] 0).map (fun c => c.1 + c.2) = [(1 : ℝ)] ∧
      panStereo [(1 : ℝ)] 0 = [(1 : ℝ)].map (fun s => (s / 2, s / 2)) ∧
      panStereo [(1 : ℝ)] 1 = [(1 : ℝ)].map (fun s => ((0 : ℝ), s)) ∧
      panStereo [(1 : ℝ)] (-1) = [(1 : ℝ)].map (fun s => (s, (0 : ℝ)))) :=
  ⟨by norm_num, by norm_num,
    panStereo_sum_and_extremes [(1 : ℝ)] 0 (by norm_num) (by norm_num)⟩
